import Mathlib

/-!
# jisub: the mini-language parser and the Jira client

A shallow embedding of `stringToMap` (main.go) and of the client operations
`execute`, `Issue`, `SubTask`, `SubTasks`, `IssueUpdate` (jira.go), with the
properties of the specification stated and settled on it.

Go strings are modelled as lists of characters.  The only separators the program
ever splits on are the one-byte strings " " and ":", so splitting on a character
agrees with Go's byte-wise splitting on every UTF-8 string.
-/

set_option linter.dupNamespace false

namespace Jisub

/-! ## Strings -/

/-- A Go string. -/
abbrev Str := List Char

/-- Go's `strings.Split(s, sep)` for a one-character separator: the pieces of `s`
between consecutive occurrences of `sep`.  The result is never empty:
splitting the empty string gives the single piece "". -/
def Split : Str → Char → List Str
  | [], _ => [[]]
  | c :: cs, sep =>
    if c = sep then [] :: Split cs sep
    else
      match Split cs sep with
      | p :: ps => (c :: p) :: ps
      | [] => [[c]]

/-- Go's `strings.ReplaceAll(s, old, new)` for a one-character `old`. -/
def ReplaceAll (s : Str) (old : Char) (new : Str) : Str :=
  s.flatMap (fun c => if c = old then new else [c])

/-- Go's `strings.Join(elems, sep)`. -/
def Join (elems : List Str) (sep : Str) : Str :=
  sep.intercalate elems

/-! ## Errors -/

/-- A Go `error` value: either built by `fmt.Errorf` in this program (with its
formatted message), or handed over by a library call. -/
inductive GoError where
  | Errorf (msg : Str)
  | Library (what : Str)
  deriving DecidableEq, Repr

/-! ## Maps -/

/-- A Go `map[string]string`, as an association list with one entry per key; the nil
map and the empty map are both the empty list. -/
abbrev GoMap := List (Str × Str)

namespace GoMap

/-- The map lookup `m[k]` with its presence flag. -/
def get : GoMap → Str → Option Str
  | [], _ => none
  | (k', v') :: rest, k => if k' = k then some v' else get rest k

/-- The map assignment `m[k] = v`: overwrites the entry of `k` when there is one,
adds an entry otherwise. -/
def set : GoMap → Str → Str → GoMap
  | [], k, v => [(k, v)]
  | (k', v') :: rest, k, v =>
    if k' = k then (k, v) :: rest else (k', v') :: set rest k v

/-- The builtin `len(m)`. -/
def len (m : GoMap) : Nat := m.length

/-- The keys of the map. -/
def keys (m : GoMap) : List Str := m.map Prod.fst

end GoMap

/-! ## The mini-language parser (main.go) -/

/-- The error `stringToMap` returns on a malformed token. -/
def formatError : GoError :=
  GoError.Errorf "incorrect value format, expect: key:value".toList

/-- The `for _, v := range items` loop of `stringToMap`: the destination map is
updated in place, so the map as left behind is returned next to the error. -/
def stringToMapLoop : List Str → GoMap → GoMap × Option GoError
  | [], resultMap => (resultMap, none)
  | v :: items, resultMap =>
    let mapEntry := Split (ReplaceAll v ' ' []) ':'
    if mapEntry.length ≠ 2 then (resultMap, some formatError)
    else stringToMapLoop items (resultMap.set (mapEntry.getD 0 []) (mapEntry.getD 1 []))

/-- The function `stringToMap(str, resultMap)` of main.go. -/
def stringToMap (str : Str) (resultMap : GoMap) : GoMap × Option GoError :=
  let items := Split str ' '
  if items.length = 0 then (resultMap, none)
  else stringToMapLoop items resultMap

/-- The part of a token before its first ':'. -/
def tokenKey (t : Str) : Str := t.takeWhile (fun c => c ≠ ':')

/-- The part of a token after its first ':'. -/
def tokenValue (t : Str) : Str := (t.dropWhile (fun c => c ≠ ':')).drop 1

/-- The number of positions of `ks` whose key already occurred at an earlier position. -/
def collisions (ks : List Str) : Nat :=
  ((List.range ks.length).filter (fun i => decide (ks.getD i [] ∈ ks.take i))).length

/-- The value of the last token of `ts` whose key is `k`, if any token has key `k`. -/
def lastValue (ts : List Str) (k : Str) : Option Str :=
  (ts.reverse.find? (fun t => decide (tokenKey t = k))).map tokenValue

/-- One map entry written the way the mini-language writes it: `key:value`. -/
def renderEntry (e : Str × Str) : Str := e.1 ++ ':' :: e.2

/-- The entries written as `key:value` and joined with single spaces. -/
def renderEntries (es : List (Str × Str)) : Str := Join (es.map renderEntry) [' ']

/-- Writing the tokens one after the other into the map. -/
def writeTokens (ts : List Str) (m : GoMap) : GoMap :=
  ts.foldl (fun acc t => acc.set (tokenKey t) (tokenValue t)) m

/-! ## The data model (types.go) -/

/-- The bearer credential. -/
structure Auth where
  BearerToken : Str

/-- The status of an issue. -/
structure IssueStatus where
  Name : Str

/-- The type of an issue. -/
structure IssueType where
  Id : Str
  Name : Str
  Subtask : Bool

/-- The project of an issue. -/
structure JiraProject where
  Id : Str

mutual
/-- An issue; `Fields` is a pointer and may be nil. -/
inductive Issue where
  | mk (Id Key Self : Str) (Fields : Option IssueFields)
/-- The detail block of an issue; pointers may be nil, a nil slice is the empty list. -/
inductive IssueFields where
  | mk (Summary : Str) (SubTasks : List (Option Issue)) (Status : Option IssueStatus)
      (IssueType : Option IssueType) (Project : Option JiraProject)
      (Labels : List (Option Str))
end

/-- The field `Key` of an issue. -/
def Issue.Key : Issue → Str
  | .mk _ key _ _ => key

/-- The zero value `var issue Issue`. -/
def Issue.zero : Issue := .mk [] [] [] none

/-- The result of bulk creation; a nil slice is the empty list. -/
structure Issues where
  Issues : List (Option Issue)

/-- The zero value `var issues Issues`. -/
def Issues.zero : Jisub.Issues := ⟨[]⟩

/-! ## The HTTP and template libraries, as far as the client uses them -/

/-- An `*http.Request`: method, URL, body and the header map. -/
structure Request where
  Method : Str
  URL : Str
  Body : Option Str
  Header : GoMap
  deriving DecidableEq

/-- The body stream of a response: its text, and the error reading it may hit. -/
structure ReadCloser where
  text : Str
  readErr : Option GoError
  deriving DecidableEq

/-- Go's `io.ReadAll` on a response body. -/
def ReadAll (body : ReadCloser) : Except GoError Str :=
  match body.readErr with
  | some err => .error err
  | none => .ok body.text

/-- An `*http.Response`, as far as `execute` looks at it. -/
structure Response where
  StatusCode : Int
  Body : ReadCloser
  deriving DecidableEq

/-- An `*http.Client`, given by what its `Do` answers to a request: a response, or
a transport error. -/
structure Client where
  Do : Request → Except GoError Response

/-- The client of types.go: base URL, HTTP client and credential (both pointers). -/
structure Jira where
  BaseUrl : Str
  Client : Option Client
  Auth : Option Auth

/-- A Go `float32`, by its bit pattern; the client only hands it to the template. -/
structure float32 where
  bits : Nat

/-- The anonymous structs handed to the three templates. -/
inductive TmplData where
  | SubTask (Parent : Issue) (Prefix : Str) (StoryPoints : float32)
  | SubTasks (Parent : Issue) (StoryPoints : GoMap)
  | IssueUpdate (Parent : Issue) (UpdateData : GoMap)

/-- A parsed `*template.Template`, given by what `Execute` writes for the data, or
the error it returns. -/
structure Template where
  Execute : TmplData → Except GoError Str

/-- What the client does not decide itself: the working directory, the template
files on disk, which method and URL `http.NewRequest` rejects, and the JSON decoder
for the two result types (the decoder may change its target even when it fails). -/
structure World where
  Getwd : Str
  ParseFiles : Str → Except GoError Template
  NewRequestErr : Str → Str → Option GoError
  DecodeIssue : ReadCloser → Issue → Issue × Option GoError
  DecodeIssues : ReadCloser → Issues → Issues × Option GoError

/-- Go's `http.NewRequest(method, url, body)`: a nil request and the error when the
method or the URL is rejected, the fresh request and a nil error otherwise. -/
def NewRequest (w : World) (method url : Str) (body : Option Str) :
    Option Request × Option GoError :=
  match w.NewRequestErr method url with
  | some err => (none, some err)
  | none => (some { Method := method, URL := url, Body := body, Header := [] }, none)

/-- What an operation does that is visible outside of its return value. -/
inductive Event where
  | Getwd
  | ParseFiles (path : Str)
  | Do (req : Request)
  | ReadAll
  | Decode
  | Close
  deriving DecidableEq

/-- How a call ends: it returns a value, or it crashes on a nil pointer. -/
inductive Outcome (α : Type) where
  | returns (a : α)
  | panics (reason : Str)

/-- A finished call: how it ended and the events it caused, in order. -/
structure Run (α : Type) where
  outcome : Outcome α
  trace : List Event

/-- The events of a run that are HTTP requests. -/
def Run.requests {α : Type} (r : Run α) : List Request :=
  r.trace.filterMap (fun e => match e with | .Do req => some req | _ => none)

/-- The events of a run that are template reads. -/
def Run.templateReads {α : Type} (r : Run α) : List Str :=
  r.trace.filterMap (fun e => match e with | .ParseFiles path => some path | _ => none)

/-- The crash of a method call or field access through a nil pointer. -/
def nilDereference : Str :=
  "runtime error: invalid memory address or nil pointer dereference".toList

/-- The formatting verb %v applied to an int. -/
def Itoa (n : Int) : Str := (toString n).toList

/-! ## The client (jira.go) -/

def subTaskBulkTmpl : Str := "/jisub/sub-task-bulk.tmpl".toList
def subTaskTmpl : Str := "/jisub/sub-task.tmpl".toList
def issueTmpl : Str := "/jisub/issue.tmpl".toList

/-- The headers `execute` sets on the request before sending it. -/
def Jira.setHeaders (j : Jira) (req : Request) : Request :=
  let req := { req with Header := req.Header.set "Accept".toList "application/json".toList }
  match j.Auth with
  | some auth =>
    if auth.BearerToken ≠ [] then
      { req with Header :=
          req.Header.set "Authorization".toList ("Bearer ".toList ++ auth.BearerToken) }
    else req
  | none => req

/-- The error `execute` builds for a status outside [200,300). -/
def responseError (status : Int) (respText : Str) : GoError :=
  GoError.Errorf ("response error ".toList ++ Itoa status ++ " ".toList ++ respText)

/-- The method `execute(req, result)`.  `result` is the pointer handed in (nil for
none); the value it points to after the call is returned next to the error.
`decode` is the JSON decoder for the type of the result. -/
def Jira.execute {ρ : Type} (decode : ReadCloser → ρ → ρ × Option GoError) (j : Jira)
    (req : Option Request) (result : Option ρ) : Run (Option ρ × Option GoError) :=
  match req with
  | none => ⟨.panics nilDereference, []⟩
  | some req =>
    let req := j.setHeaders req
    match j.Client with
    | none => ⟨.panics nilDereference, []⟩
    | some client =>
      match client.Do req with
      | .error err => ⟨.returns (result, some err), [.Do req]⟩
      | .ok resp =>
        if resp.StatusCode = 204 then
          ⟨.returns (result, none), [.Do req, .Close]⟩
        else if resp.StatusCode ≥ 300 ∨ resp.StatusCode < 200 then
          match ReadAll resp.Body with
          | .ok respText =>
            ⟨.returns (result, some (responseError resp.StatusCode respText)),
              [.Do req, .ReadAll, .Close]⟩
          | .error err => ⟨.returns (result, some err), [.Do req, .ReadAll, .Close]⟩
        else
          match result with
          | some target =>
            let decoded := decode resp.Body target
            ⟨.returns (some decoded.1, decoded.2), [.Do req, .Decode, .Close]⟩
          | none => ⟨.returns (none, none), [.Do req, .Close]⟩

/-- The events `pre` followed by the run `r`. -/
def Run.after {α : Type} (pre : List Event) (r : Run α) : Run α :=
  ⟨r.outcome, pre ++ r.trace⟩

/-- The method `Issue(issueKey)`. -/
def Jira.Issue (w : World) (j : Jira) (issueKey : Str) :
    Run (Option Jisub.Issue × Option GoError) :=
  let url := j.BaseUrl ++ "/issue/".toList ++ issueKey
  match NewRequest w "GET".toList url none with
  | (_, some err) => ⟨.returns (none, some err), []⟩
  | (req, none) => j.execute w.DecodeIssue req (some Issue.zero)

/-- The method `SubTask(parent, prefix, sp)`. -/
def Jira.SubTask (w : World) (j : Jira) (parent : Jisub.Issue) (Prefix : Str) (sp : float32) :
    Run (Option Jisub.Issue × Option GoError) :=
  let path := w.Getwd ++ subTaskTmpl
  match w.ParseFiles path with
  | .error err => ⟨.returns (none, some err), [.Getwd, .ParseFiles path]⟩
  | .ok tmpl =>
    match tmpl.Execute (.SubTask parent Prefix sp) with
    | .error err => ⟨.returns (none, some err), [.Getwd, .ParseFiles path]⟩
    | .ok buff =>
      let url := j.BaseUrl ++ "/issue".toList
      match NewRequest w "POST".toList url (some buff) with
      | (none, _) => ⟨.panics nilDereference, [.Getwd, .ParseFiles path]⟩
      | (some req, err) =>
        let req := { req with
          Header := req.Header.set "Content-Type".toList "application/json".toList }
        match err with
        | some err => ⟨.returns (none, some err), [.Getwd, .ParseFiles path]⟩
        | none =>
          Run.after [.Getwd, .ParseFiles path] (j.execute w.DecodeIssue (some req) (some Issue.zero))

/-- The method `SubTasks(parent, sp)`. -/
def Jira.SubTasks (w : World) (j : Jira) (parent : Jisub.Issue) (sp : GoMap) :
    Run (Option Issues × Option GoError) :=
  if sp.len = 0 then ⟨.returns (some ⟨[]⟩, none), []⟩
  else
    let path := w.Getwd ++ subTaskBulkTmpl
    match w.ParseFiles path with
    | .error err => ⟨.returns (none, some err), [.Getwd, .ParseFiles path]⟩
    | .ok tmpl =>
      match tmpl.Execute (.SubTasks parent sp) with
      | .error err => ⟨.returns (none, some err), [.Getwd, .ParseFiles path]⟩
      | .ok buff =>
        let url := j.BaseUrl ++ "/issue/bulk".toList
        match NewRequest w "POST".toList url (some buff) with
        | (none, _) => ⟨.panics nilDereference, [.Getwd, .ParseFiles path]⟩
        | (some req, err) =>
          let req := { req with
            Header := req.Header.set "Content-Type".toList "application/json".toList }
          match err with
          | some err => ⟨.returns (none, some err), [.Getwd, .ParseFiles path]⟩
          | none =>
            Run.after [.Getwd, .ParseFiles path] (j.execute w.DecodeIssues (some req) (some Issues.zero))

/-- The method `IssueUpdate(parent, updateData)`; it has no result to decode into. -/
def Jira.IssueUpdate (w : World) (j : Jira) (parent : Jisub.Issue) (updateData : GoMap) :
    Run (Option GoError) :=
  if parent.Key.length = 0 then
    ⟨.returns (some (GoError.Errorf "missing required issue key".toList)), []⟩
  else
    let path := w.Getwd ++ issueTmpl
    match w.ParseFiles path with
    | .error err => ⟨.returns (some err), [.Getwd, .ParseFiles path]⟩
    | .ok tmpl =>
      match tmpl.Execute (.IssueUpdate parent updateData) with
      | .error err => ⟨.returns (some err), [.Getwd, .ParseFiles path]⟩
      | .ok buff =>
        let url := j.BaseUrl ++ "/issue/".toList ++ parent.Key
        match NewRequest w "PUT".toList url (some buff) with
        | (none, _) => ⟨.panics nilDereference, [.Getwd, .ParseFiles path]⟩
        | (some req, err) =>
          let req := { req with
            Header := req.Header.set "Content-Type".toList "application/json".toList }
          match err with
          | some err => ⟨.returns (some err), [.Getwd, .ParseFiles path]⟩
          | none =>
            let run := j.execute (fun _ (u : Unit) => (u, none)) (some req) none
            match run.outcome with
            | .returns (_, err) => ⟨.returns err, [.Getwd, .ParseFiles path] ++ run.trace⟩
            | .panics reason => ⟨.panics reason, [.Getwd, .ParseFiles path] ++ run.trace⟩

/-! ## Sample collaborators, for evaluating the client on concrete inputs -/

/-- A template that renders every data to the same document. -/
def sampleTemplate : Template := ⟨fun _ => .ok "doc".toList⟩

/-- A world where the three templates are on disk, `http.NewRequest` rejects a URL
that starts with ':' (a URL without a scheme, as net/url does) and the decoders
fill in the body text as the key of the first issue. -/
def sampleWorld : World where
  Getwd := "/home/op".toList
  ParseFiles := fun _ => .ok sampleTemplate
  NewRequestErr := fun _ url =>
    if url.head? = some ':' then some (GoError.Library "missing protocol scheme".toList) else none
  DecodeIssue := fun body _ => (Issue.mk [] body.text [] none, none)
  DecodeIssues := fun body _ => (⟨[some (Issue.mk [] body.text [] none)]⟩, none)

/-- A client whose server answers every request with the given status and body. -/
def sampleClient (status : Int) (body : Str) : Client :=
  ⟨fun _ => .ok ⟨status, ⟨body, none⟩⟩⟩

/-- A Jira client for the given base URL, talking to `sampleClient`. -/
def sampleJira (baseUrl : Str) (status : Int) (body : Str) : Jira :=
  ⟨baseUrl, some (sampleClient status body), some ⟨"secret".toList⟩⟩

/-- A well-formed base URL. -/
def goodUrl : Str := "https://jira.example/rest/api/2".toList

/-- A base URL without a scheme, which `http.NewRequest` rejects. -/
def badUrl : Str := "://jira.example/rest/api/2".toList

/-! ## Facts about `Split` -/

theorem Split_ne_nil (s : Str) (sep : Char) : Split s sep ≠ [] := by
  induction s with
  | nil => simp [Split]
  | cons c cs ih =>
    unfold Split
    split
    · simp
    · split <;> simp

theorem Split_cons_sep (cs : Str) (sep : Char) : Split (sep :: cs) sep = [] :: Split cs sep := by
  simp [Split]

theorem Split_cons_ne (c : Char) (cs : Str) (sep : Char) (h : c ≠ sep) :
    Split (c :: cs) sep = (c :: (Split cs sep).headD []) :: (Split cs sep).tail := by
  have hne := Split_ne_nil cs sep
  rw [Split, if_neg h]
  cases hs : Split cs sep with
  | nil => exact absurd hs hne
  | cons p ps => simp

theorem Split_length (s : Str) (sep : Char) : (Split s sep).length = s.count sep + 1 := by
  induction s with
  | nil => simp [Split]
  | cons c cs ih =>
    by_cases h : c = sep
    · subst h; simp [Split_cons_sep, ih]
    · have hne := Split_ne_nil cs sep
      rw [Split_cons_ne c cs sep h, List.count_cons_of_ne (Ne.symm h)]
      cases hs : Split cs sep with
      | nil => exact absurd hs hne
      | cons p ps => rw [hs] at ih; simpa using ih

theorem Split_not_mem (s : Str) (sep : Char) : ∀ p ∈ Split s sep, sep ∉ p := by
  induction s with
  | nil => simp [Split]
  | cons c cs ih =>
    by_cases h : c = sep
    · subst h
      intro p hp
      rw [Split_cons_sep] at hp
      rcases List.mem_cons.1 hp with rfl | hp
      · simp
      · exact ih p hp
    · have hne := Split_ne_nil cs sep
      intro p hp
      rw [Split_cons_ne c cs sep h] at hp
      cases hs : Split cs sep with
      | nil => exact absurd hs hne
      | cons q qs =>
        rw [hs] at hp ih
        rcases List.mem_cons.1 hp with rfl | hp
        · have := ih q (by simp)
          simp only [List.headD_cons, List.mem_cons, not_or]
          exact ⟨Ne.symm h, this⟩
        · exact ih p (by simp at hp ⊢; exact Or.inr hp)

theorem Split_of_not_mem (s : Str) (sep : Char) (h : sep ∉ s) : Split s sep = [s] := by
  induction s with
  | nil => simp [Split]
  | cons c cs ih =>
    simp only [List.mem_cons, not_or] at h
    rw [Split_cons_ne c cs sep (Ne.symm h.1), ih h.2]
    simp

theorem ReplaceAll_of_not_mem (s : Str) (old : Char) (new : Str) (h : old ∉ s) :
    ReplaceAll s old new = s := by
  induction s with
  | nil => simp [ReplaceAll]
  | cons c cs ih =>
    simp only [List.mem_cons, not_or] at h
    have := ih h.2
    simp only [ReplaceAll] at this ⊢
    simp [List.flatMap_cons, this, Ne.symm h.1]

theorem Split_token (t : Str) (h : t.count ':' = 1) :
    Split t ':' = [tokenKey t, tokenValue t] := by
  induction t with
  | nil => simp at h
  | cons c cs ih =>
    by_cases hc : c = ':'
    · subst hc
      have h0 : cs.count ':' = 0 := by simpa using h
      have hnm : ':' ∉ cs := List.count_eq_zero.1 h0
      rw [Split_cons_sep, Split_of_not_mem cs ':' hnm]
      simp [tokenKey, tokenValue]
    · have h1 : cs.count ':' = 1 := by
        rw [List.count_cons_of_ne (Ne.symm hc)] at h; exact h
      rw [Split_cons_ne c cs ':' hc, ih h1]
      simp [tokenKey, tokenValue, List.takeWhile_cons, List.dropWhile_cons, hc]

theorem Split_length_eq_two (t : Str) : (Split t ':').length = 2 ↔ t.count ':' = 1 := by
  rw [Split_length]; omega

/-! ## Facts about the loop of `stringToMap` -/

theorem loop_step (v : Str) (items : List Str) (m : GoMap) (hsp : ' ' ∉ v)
    (h : v.count ':' = 1) :
    stringToMapLoop (v :: items) m
      = stringToMapLoop items (m.set (tokenKey v) (tokenValue v)) := by
  simp [stringToMapLoop, ReplaceAll_of_not_mem v ' ' [] hsp, Split_token v h]

theorem loop_fail (v : Str) (items : List Str) (m : GoMap) (hsp : ' ' ∉ v)
    (h : v.count ':' ≠ 1) :
    stringToMapLoop (v :: items) m = (m, some formatError) := by
  have : (Split v ':').length ≠ 2 := fun h2 => h ((Split_length_eq_two v).1 h2)
  simp [stringToMapLoop, ReplaceAll_of_not_mem v ' ' [] hsp, this]

theorem loop_ok (ts : List Str) (m : GoMap) (hsp : ∀ t ∈ ts, ' ' ∉ t)
    (h : ∀ t ∈ ts, t.count ':' = 1) :
    stringToMapLoop ts m = (writeTokens ts m, none) := by
  induction ts generalizing m with
  | nil => simp [stringToMapLoop, writeTokens]
  | cons v items ih =>
    rw [loop_step v items m (hsp v (by simp)) (h v (by simp)),
      ih _ (fun t ht => hsp t (by simp [ht])) (fun t ht => h t (by simp [ht]))]
    simp [writeTokens]

theorem loop_error_iff (ts : List Str) (m : GoMap) (hsp : ∀ t ∈ ts, ' ' ∉ t) :
    (stringToMapLoop ts m).2 = some formatError ↔ ∃ t ∈ ts, t.count ':' ≠ 1 := by
  induction ts generalizing m with
  | nil => simp [stringToMapLoop]
  | cons v items ih =>
    by_cases h : v.count ':' = 1
    · rw [loop_step v items m (hsp v (by simp)) h,
        ih _ (fun t ht => hsp t (by simp [ht]))]
      simp [h]
    · rw [loop_fail v items m (hsp v (by simp)) h]
      simp [h]

theorem loop_error_cases (ts : List Str) (m : GoMap) :
    (stringToMapLoop ts m).2 = none ∨ (stringToMapLoop ts m).2 = some formatError := by
  induction ts generalizing m with
  | nil => simp [stringToMapLoop]
  | cons v items ih =>
    unfold stringToMapLoop
    simp only
    split
    · simp
    · exact ih _

theorem stringToMap_eq_loop (s : Str) (m : GoMap) :
    stringToMap s m = stringToMapLoop (Split s ' ') m := by
  have := Split_ne_nil s ' '
  simp [stringToMap, this]

/-! ## Facts about maps -/

theorem GoMap.get_set (m : GoMap) (k v k' : Str) :
    (m.set k v).get k' = if k = k' then some v else m.get k' := by
  induction m with
  | nil => simp [GoMap.set, GoMap.get]
  | cons e rest ih =>
    obtain ⟨a, b⟩ := e
    by_cases h : a = k
    · subst h
      by_cases h' : a = k' <;> simp [GoMap.set, GoMap.get, h']
    · by_cases h' : a = k'
      · subst h'
        simp [GoMap.set, GoMap.get, h, Ne.symm h]
      · simp [GoMap.set, GoMap.get, h, h', ih]

theorem GoMap.get_eq_none_iff (m : GoMap) (k : Str) : m.get k = none ↔ k ∉ m.keys := by
  induction m with
  | nil => simp [GoMap.get, GoMap.keys]
  | cons e rest ih =>
    obtain ⟨a, b⟩ := e
    by_cases h : a = k
    · simp [GoMap.get, GoMap.keys, h]
    · simp only [GoMap.keys] at ih
      simp [GoMap.get, GoMap.keys, h, ih, Ne.symm h]

theorem GoMap.set_of_not_mem (m : GoMap) (k v : Str) (h : k ∉ m.keys) :
    m.set k v = m ++ [(k, v)] := by
  induction m with
  | nil => simp [GoMap.set]
  | cons e rest ih =>
    obtain ⟨a, b⟩ := e
    simp only [GoMap.keys, List.map_cons, List.mem_cons, not_or] at h
    have := ih (by simpa [GoMap.keys] using h.2)
    simp [GoMap.set, Ne.symm h.1, this]

theorem GoMap.keys_set_of_mem (m : GoMap) (k v : Str) (h : k ∈ m.keys) :
    (m.set k v).keys = m.keys := by
  induction m with
  | nil => simp [GoMap.keys] at h
  | cons e rest ih =>
    obtain ⟨a, b⟩ := e
    by_cases hk : a = k
    · simp [GoMap.set, GoMap.keys, hk]
    · have hr : k ∈ GoMap.keys rest := by
        simp only [GoMap.keys, List.map_cons, List.mem_cons] at h
        rcases h with h | h
        · exact absurd h.symm hk
        · simpa [GoMap.keys] using h
      have := ih hr
      simp only [GoMap.keys] at this
      simp [GoMap.set, GoMap.keys, hk, this]

theorem GoMap.keys_set (m : GoMap) (k v : Str) :
    (m.set k v).keys = if k ∈ m.keys then m.keys else m.keys ++ [k] := by
  by_cases h : k ∈ m.keys
  · simp [h, GoMap.keys_set_of_mem m k v h]
  · rw [if_neg h, GoMap.set_of_not_mem m k v h]
    simp [GoMap.keys]

theorem GoMap.len_set (m : GoMap) (k v : Str) :
    (m.set k v).len = if k ∈ m.keys then m.len else m.len + 1 := by
  have h := congrArg List.length (GoMap.keys_set m k v)
  simp only [GoMap.keys, List.length_map] at h
  by_cases hk : k ∈ m.keys
  · simp only [GoMap.keys] at hk
    simp [GoMap.len, GoMap.keys, hk] at h ⊢
    exact h
  · simp only [GoMap.keys] at hk
    simp [GoMap.len, GoMap.keys, hk] at h ⊢
    exact h

theorem GoMap.nodup_keys_set (m : GoMap) (k v : Str) (h : m.keys.Nodup) :
    (m.set k v).keys.Nodup := by
  rw [GoMap.keys_set]
  by_cases hk : k ∈ m.keys
  · simpa [hk] using h
  · simp only [hk, if_false]
    exact List.Nodup.append h (by simp) (by simpa using hk)

theorem GoMap.mem_of_get (m : GoMap) (k v : Str) (h : m.get k = some v) : (k, v) ∈ m := by
  induction m with
  | nil => simp [GoMap.get] at h
  | cons e rest ih =>
    obtain ⟨a, b⟩ := e
    by_cases hk : a = k
    · simp [GoMap.get, hk] at h
      simp [hk, h]
    · simp [GoMap.get, hk] at h
      exact List.mem_cons_of_mem _ (ih h)

theorem GoMap.get_of_mem (m : GoMap) (k v : Str) (hn : m.keys.Nodup) (h : (k, v) ∈ m) :
    m.get k = some v := by
  induction m with
  | nil => simp at h
  | cons e rest ih =>
    obtain ⟨a, b⟩ := e
    simp only [GoMap.keys, List.map_cons, List.nodup_cons] at hn
    rcases List.mem_cons.1 h with h | h
    · cases h; simp [GoMap.get]
    · have hne : a ≠ k := by
        rintro rfl
        exact hn.1 (List.mem_map.2 ⟨(a, v), h, rfl⟩)
      simp only [GoMap.get, hne, if_false]
      exact ih hn.2 h

/-! ## Facts about the written map -/

theorem writeTokens_snoc (ts : List Str) (t : Str) (m : GoMap) :
    writeTokens (ts ++ [t]) m = (writeTokens ts m).set (tokenKey t) (tokenValue t) := by
  simp [writeTokens, List.foldl_append]

theorem writeTokens_mem_keys (ts : List Str) :
    ∀ k, k ∈ (writeTokens ts []).keys ↔ k ∈ ts.map tokenKey := by
  induction ts using List.reverseRecOn with
  | nil => simp [writeTokens, GoMap.keys]
  | append_singleton ts t ih =>
    intro k
    rw [writeTokens_snoc, GoMap.keys_set]
    by_cases h : tokenKey t ∈ (writeTokens ts []).keys
    · rw [if_pos h, ih]
      constructor
      · intro hk; simp only [List.map_append, List.mem_append]; exact Or.inl hk
      · intro hk
        simp only [List.map_append, List.mem_append, List.map_cons, List.map_nil,
          List.mem_singleton] at hk
        rcases hk with hk | hk
        · exact hk
        · rw [hk]; exact (ih _).1 h
    · rw [if_neg h]
      simp only [List.mem_append, List.map_append, List.map_cons, List.map_nil,
        List.mem_singleton, ih]

theorem writeTokens_nodup (ts : List Str) : (writeTokens ts []).keys.Nodup := by
  induction ts using List.reverseRecOn with
  | nil => simp [writeTokens, GoMap.keys]
  | append_singleton ts t ih =>
    rw [writeTokens_snoc]
    exact GoMap.nodup_keys_set _ _ _ ih

theorem writeTokens_get (ts : List Str) (k : Str) :
    (writeTokens ts []).get k = lastValue ts k := by
  induction ts using List.reverseRecOn with
  | nil => simp [writeTokens, GoMap.get, lastValue]
  | append_singleton ts t ih =>
    rw [writeTokens_snoc, GoMap.get_set, ih]
    by_cases h : tokenKey t = k
    · simp [lastValue, h, List.find?_cons]
    · simp [lastValue, h, List.find?_cons]

theorem collisions_snoc (ks : List Str) (k : Str) :
    collisions (ks ++ [k]) = collisions ks + if k ∈ ks then 1 else 0 := by
  unfold collisions
  rw [List.length_append, List.length_singleton, List.range_succ, List.filter_append,
    List.length_append]
  congr 1
  · congr 1
    apply List.filter_congr
    intro i hi
    have hi' : i < ks.length := List.mem_range.1 hi
    have h1 : (ks ++ [k]).getD i [] = ks.getD i [] := by
      simp [List.getD_eq_getElem?_getD, List.getElem?_append_left hi']
    have h2 : (ks ++ [k]).take i = ks.take i := by
      rw [List.take_append_of_le_length (Nat.le_of_lt hi')]
    rw [h1, h2]
  · have h1 : (ks ++ [k]).getD ks.length [] = k := by
      simp [List.getD_eq_getElem?_getD]
    have h2 : (ks ++ [k]).take ks.length = ks := by simp
    by_cases hk : k ∈ ks <;> simp [List.filter_cons, h1, h2, hk]

theorem writeTokens_len (ts : List Str) :
    (writeTokens ts []).len + collisions (ts.map tokenKey) = ts.length := by
  induction ts using List.reverseRecOn with
  | nil => simp [writeTokens, GoMap.len, collisions]
  | append_singleton ts t ih =>
    rw [writeTokens_snoc, GoMap.len_set, List.map_append, List.map_cons, List.map_nil,
      collisions_snoc, List.length_append, List.length_singleton]
    by_cases h : tokenKey t ∈ (writeTokens ts []).keys
    · have h' := (writeTokens_mem_keys ts _).1 h
      rw [if_pos h, if_pos h']; omega
    · have h' : tokenKey t ∉ ts.map tokenKey := fun hh => h ((writeTokens_mem_keys ts _).2 hh)
      rw [if_neg h, if_neg h']; omega

/-- What a successful run of `stringToMap` on the empty map looks like. -/
theorem stringToMap_success (s : Str) (m : GoMap) (h : stringToMap s [] = (m, none)) :
    (∀ t ∈ Split s ' ', t.count ':' = 1) ∧ m = writeTokens (Split s ' ') [] := by
  rw [stringToMap_eq_loop] at h
  have hsp : ∀ t ∈ Split s ' ', ' ' ∉ t := Split_not_mem s ' '
  have hall : ∀ t ∈ Split s ' ', t.count ':' = 1 := by
    by_contra hne
    push_neg at hne
    have := (loop_error_iff (Split s ' ') [] hsp).2 hne
    rw [h] at this
    simp at this
  refine ⟨hall, ?_⟩
  rw [loop_ok _ _ hsp hall] at h
  exact (congrArg Prod.fst h).symm

/-! ## Facts about rendered entries -/

theorem Split_append_sep (l r : Str) (sep : Char) (h : sep ∉ l) :
    Split (l ++ sep :: r) sep = l :: Split r sep := by
  induction l with
  | nil => simp [Split_cons_sep]
  | cons c cs ih =>
    simp only [List.mem_cons, not_or] at h
    rw [List.cons_append, Split_cons_ne c _ sep (Ne.symm h.1), ih h.2]
    simp

theorem Join_singleton (l : Str) (sep : Str) : Join [l] sep = l := by
  simp [Join, List.intercalate, List.intersperse]

theorem Join_cons_cons (a b : Str) (r : List Str) (sep : Str) :
    Join (a :: b :: r) sep = a ++ (sep ++ Join (b :: r) sep) := by
  simp [Join, List.intercalate, List.intersperse]

theorem Split_Join (ls : List Str) (sep : Char) (hne : ls ≠ [])
    (h : ∀ l ∈ ls, sep ∉ l) : Split (Join ls [sep]) sep = ls := by
  induction ls with
  | nil => exact absurd rfl hne
  | cons a r ih =>
    cases r with
    | nil => rw [Join_singleton]; exact Split_of_not_mem a sep (h a (by simp))
    | cons b r =>
      rw [Join_cons_cons, List.singleton_append, Split_append_sep _ _ _ (h a (by simp)),
        ih (by simp) (fun l hl => h l (List.mem_cons_of_mem _ hl))]

theorem token_decomp (t : Str) (h : ':' ∈ t) : t = tokenKey t ++ ':' :: tokenValue t := by
  induction t with
  | nil => simp at h
  | cons c cs ih =>
    by_cases hc : c = ':'
    · subst hc; simp [tokenKey, tokenValue]
    · have hcs : ':' ∈ cs := by
        rcases List.mem_cons.1 h with h | h
        · exact absurd h.symm hc
        · exact h
      have := ih hcs
      simp only [tokenKey, tokenValue] at this ⊢
      simp only [List.takeWhile_cons, List.dropWhile_cons, hc, ne_eq, not_false_eq_true,
        decide_True, if_true, List.cons_append]
      exact congrArg (List.cons c) this

theorem token_parts (t : Str) (hsp : ' ' ∉ t) (h : t.count ':' = 1) :
    (' ' ∉ tokenKey t ∧ ':' ∉ tokenKey t) ∧ (' ' ∉ tokenValue t ∧ ':' ∉ tokenValue t) := by
  have hmem : ':' ∈ t := List.count_pos_iff.1 (by omega)
  have hd := token_decomp t hmem
  have hc : (tokenKey t ++ ':' :: tokenValue t).count ':' = 1 := by rw [← hd]; exact h
  rw [List.count_append, List.count_cons_self] at hc
  have hk : (tokenKey t).count ':' = 0 := by omega
  have hv : (tokenValue t).count ':' = 0 := by omega
  have hsp' : ' ' ∉ tokenKey t ++ ':' :: tokenValue t := by rw [← hd]; exact hsp
  simp only [List.mem_append, List.mem_cons, not_or] at hsp'
  exact ⟨⟨hsp'.1, List.count_eq_zero.1 hk⟩, ⟨hsp'.2.2, List.count_eq_zero.1 hv⟩⟩

theorem tokenKey_renderEntry (e : Str × Str) (h : ':' ∉ e.1) : tokenKey (renderEntry e) = e.1 := by
  obtain ⟨k, v⟩ := e
  simp only [renderEntry, tokenKey] at h ⊢
  induction k with
  | nil => simp
  | cons c cs ih =>
    simp only [List.mem_cons, not_or] at h
    simp only [List.cons_append, List.takeWhile_cons, Ne.symm h.1, ne_eq, not_false_eq_true,
      decide_True, if_true]
    exact congrArg (List.cons c) (ih h.2)

theorem tokenValue_renderEntry (e : Str × Str) (h : ':' ∉ e.1) :
    tokenValue (renderEntry e) = e.2 := by
  obtain ⟨k, v⟩ := e
  simp only [renderEntry, tokenValue] at h ⊢
  induction k with
  | nil => simp
  | cons c cs ih =>
    simp only [List.mem_cons, not_or] at h
    simp only [List.cons_append, List.dropWhile_cons, Ne.symm h.1, ne_eq, not_false_eq_true,
      decide_True, if_true]
    exact ih h.2

theorem count_renderEntry (e : Str × Str) (h1 : ':' ∉ e.1) (h2 : ':' ∉ e.2) :
    (renderEntry e).count ':' = 1 := by
  simp [renderEntry, List.count_append, List.count_eq_zero.2 h1, List.count_eq_zero.2 h2]

theorem GoMap.mem_set (m : GoMap) (k v : Str) (e : Str × Str) (h : e ∈ m.set k v) :
    e = (k, v) ∨ e ∈ m := by
  induction m with
  | nil => simpa [GoMap.set] using h
  | cons a rest ih =>
    obtain ⟨a1, a2⟩ := a
    by_cases hk : a1 = k
    · simp only [GoMap.set, hk, if_true] at h
      rcases List.mem_cons.1 h with h | h
      · exact Or.inl h
      · exact Or.inr (List.mem_cons_of_mem _ h)
    · simp only [GoMap.set, hk, if_false] at h
      rcases List.mem_cons.1 h with h | h
      · exact Or.inr (by rw [h]; exact List.mem_cons_self _ _)
      · rcases ih h with h | h
        · exact Or.inl h
        · exact Or.inr (List.mem_cons_of_mem _ h)

theorem writeTokens_mem (ts : List Str) :
    ∀ e ∈ writeTokens ts [], ∃ t ∈ ts, e = (tokenKey t, tokenValue t) := by
  induction ts using List.reverseRecOn with
  | nil => simp [writeTokens]
  | append_singleton ts t ih =>
    intro e he
    rw [writeTokens_snoc] at he
    rcases GoMap.mem_set _ _ _ _ he with he | he
    · exact ⟨t, by simp, he⟩
    · obtain ⟨t', ht', h'⟩ := ih e he
      exact ⟨t', by simp [ht'], h'⟩

theorem writeTokens_render (es : List (Str × Str)) (m : GoMap)
    (hc : ∀ e ∈ es, ':' ∉ e.1) (hn : (m.keys ++ GoMap.keys es).Nodup) :
    writeTokens (es.map renderEntry) m = m ++ es := by
  induction es generalizing m with
  | nil => simp [writeTokens]
  | cons e rest ih =>
    have hk : e.1 ∉ m.keys := by
      intro hmem
      have := (List.nodup_append.1 hn).2.2
      exact this hmem (by simp [GoMap.keys])
    have hstep : writeTokens ((e :: rest).map renderEntry) m
        = writeTokens (rest.map renderEntry) (m.set e.1 e.2) := by
      simp [writeTokens, tokenKey_renderEntry e (hc e (by simp)),
        tokenValue_renderEntry e (hc e (by simp))]
    rw [hstep, GoMap.set_of_not_mem m _ _ hk, ih _ (fun e' he' => hc e' (by simp [he']))]
    · simp
    · simpa [GoMap.keys, List.append_assoc] using hn

theorem tokenKey_eq_nil (t : Str) : tokenKey t = [] ↔ t = [] ∨ t.head? = some ':' := by
  cases t with
  | nil => simp [tokenKey]
  | cons c cs =>
    by_cases hc : c = ':' <;> simp [tokenKey, List.takeWhile_cons, hc]

theorem GoMap.get_perm (m es : GoMap) (hn : m.keys.Nodup) (hp : es.Perm m) (k : Str) :
    GoMap.get es k = m.get k := by
  have hn' : (GoMap.keys es).Nodup := (List.Perm.nodup_iff (hp.map Prod.fst)).2 hn
  cases hm : m.get k with
  | some v => exact GoMap.get_of_mem es k v hn' (hp.mem_iff.2 (GoMap.mem_of_get m k v hm))
  | none =>
    cases he : GoMap.get es k with
    | none => rfl
    | some v =>
      have := GoMap.get_of_mem m k v hn (hp.mem_iff.1 (GoMap.mem_of_get es k v he))
      rw [hm] at this
      exact absurd this (by simp)

/-! ## The claims about the parser -/

/-- C1: `stringToMap` returns an error exactly when some token of the input (the
pieces between single spaces) does not contain exactly one ':', that is, does not
split into exactly two parts on ':'.  It fails on "QA2" and on "QA:2:3". -/
theorem stringToMap_error_iff (s : Str) (m : GoMap) :
    ((stringToMap s m).2 ≠ none ↔ ∃ t ∈ Split s ' ', t.count ':' ≠ 1) ∧
    ((stringToMap s m).2 ≠ none ↔ ∃ t ∈ Split s ' ', (Split t ':').length ≠ 2) ∧
    ((stringToMap s m).2 = none ↔ ∀ t ∈ Split s ' ', t.count ':' = 1) ∧
    (stringToMap "QA2".toList m).2 = some formatError ∧
    (stringToMap "QA:2:3".toList m).2 = some formatError := by
  have hsp : ∀ t ∈ Split s ' ', ' ' ∉ t := Split_not_mem s ' '
  have key : (stringToMap s m).2 ≠ none ↔ ∃ t ∈ Split s ' ', t.count ':' ≠ 1 := by
    rw [stringToMap_eq_loop, ← loop_error_iff (Split s ' ') m hsp]
    rcases loop_error_cases (Split s ' ') m with h | h <;> simp [h]
  refine ⟨key, ?_, ?_, ?_, ?_⟩
  · rw [key]
    constructor
    · rintro ⟨t, ht, h⟩
      exact ⟨t, ht, fun h2 => h ((Split_length_eq_two t).1 h2)⟩
    · rintro ⟨t, ht, h⟩
      exact ⟨t, ht, fun h1 => h ((Split_length_eq_two t).2 h1)⟩
  · rw [← not_iff_not, ← ne_eq, key]
    push_neg
    rfl
  · rw [stringToMap_eq_loop]
    have : Split "QA2".toList ' ' = ["QA2".toList] := by decide
    rw [this, loop_fail _ _ _ (by decide) (by decide)]
  · rw [stringToMap_eq_loop]
    have : Split "QA:2:3".toList ' ' = ["QA:2:3".toList] := by decide
    rw [this, loop_fail _ _ _ (by decide) (by decide)]

/-- C2: on the empty string `stringToMap` does not return nil: `strings.Split` gives
the single token "" (never an empty slice, so the guard on `len(items) == 0` is never
taken), the token has no ':', and the format error is returned; the map stays empty. -/
theorem stringToMap_empty_input :
    stringToMap "".toList [] = ([], some formatError) ∧
    Split "".toList ' ' = ["".toList] := by
  decide

/-- C3, as stated, fails: the input ":2" is accepted and the map gets an entry whose
key is the empty string. -/
theorem stringToMap_empty_key_accepted :
    stringToMap ":2".toList [] = ([("".toList, "2".toList)], none) ∧
    "".toList ∈ (stringToMap ":2".toList []).1.keys := by
  decide

/-- C3, amended: after a successful `stringToMap` on the empty map no key contains a
space or a ':', and the map has an entry with the empty key exactly when some token
of the input starts with ':'. -/
theorem stringToMap_keys (s : Str) (m : GoMap) (h : stringToMap s [] = (m, none)) :
    (∀ k ∈ m.keys, ' ' ∉ k ∧ ':' ∉ k) ∧
    ([] ∈ m.keys ↔ ∃ t ∈ Split s ' ', t.head? = some ':') := by
  obtain ⟨hall, hm⟩ := stringToMap_success s m h
  have hsp : ∀ t ∈ Split s ' ', ' ' ∉ t := Split_not_mem s ' '
  subst hm
  constructor
  · intro k hk
    obtain ⟨t, ht, rfl⟩ := List.mem_map.1 ((writeTokens_mem_keys _ k).1 hk)
    exact (token_parts t (hsp t ht) (hall t ht)).1
  · rw [writeTokens_mem_keys]
    constructor
    · intro hk
      obtain ⟨t, ht, hkey⟩ := List.mem_map.1 hk
      refine ⟨t, ht, ?_⟩
      rcases (tokenKey_eq_nil t).1 hkey with h0 | h0
      · have := hall t ht
        rw [h0] at this
        simp at this
      · exact h0
    · rintro ⟨t, ht, h0⟩
      exact List.mem_map.2 ⟨t, ht, (tokenKey_eq_nil t).2 (Or.inr h0)⟩

/-- The input "QA:2 :3" is accepted, and its second token starts with ':'. -/
theorem stringToMap_keys_witness :
    stringToMap "QA:2 :3".toList [] = ([("QA".toList, "2".toList), ("".toList, "3".toList)], none) ∧
    ("".toList ∈ GoMap.keys [("QA".toList, "2".toList), ("".toList, "3".toList)] ↔
      ∃ t ∈ Split "QA:2 :3".toList ' ', t.head? = some ':') :=
  ⟨by decide, (stringToMap_keys "QA:2 :3".toList _ (by decide)).2⟩

/-- C4: after a successful `stringToMap` on the empty map, looking up any key gives
the value of the last token with that key (and nothing when no token has that key),
the keys are exactly the keys of the tokens, and the size is the number of tokens
minus the number of tokens whose key occurred in an earlier token. -/
theorem stringToMap_last_wins (s : Str) (m : GoMap) (h : stringToMap s [] = (m, none)) :
    (∀ k, m.get k = lastValue (Split s ' ') k) ∧
    (∀ k, k ∈ m.keys ↔ ∃ t ∈ Split s ' ', tokenKey t = k) ∧
    m.keys.Nodup ∧
    m.len = (Split s ' ').length - collisions ((Split s ' ').map tokenKey) := by
  obtain ⟨_, hm⟩ := stringToMap_success s m h
  subst hm
  refine ⟨writeTokens_get _, ?_, writeTokens_nodup _, ?_⟩
  · intro k
    rw [writeTokens_mem_keys]
    simp [List.mem_map]
  · have := writeTokens_len (Split s ' ')
    omega

/-- The input "QA:2 BE:3 QA:5" is accepted with the two entries QA:5 and BE:3. -/
theorem stringToMap_last_wins_witness :
    stringToMap "QA:2 BE:3 QA:5".toList [] =
      ([("QA".toList, "5".toList), ("BE".toList, "3".toList)], none) ∧
    GoMap.len [("QA".toList, "5".toList), ("BE".toList, "3".toList)] = 3 - 1 ∧
    GoMap.len [("QA".toList, "5".toList), ("BE".toList, "3".toList)] =
      (Split "QA:2 BE:3 QA:5".toList ' ').length -
        collisions ((Split "QA:2 BE:3 QA:5".toList ' ').map tokenKey) :=
  ⟨by decide, by decide, (stringToMap_last_wins "QA:2 BE:3 QA:5".toList _ (by decide)).2.2.2⟩

/-- C5: when `stringToMap` accepts `s` with map `m` (from the empty map), writing the
entries of `m` in any order as `key:value` joined by single spaces gives a string
that `stringToMap` accepts again, with a map that has exactly the entries of `m`. -/
theorem stringToMap_roundtrip (s : Str) (m es : GoMap) (h : stringToMap s [] = (m, none))
    (hp : es.Perm m) :
    ∃ m', stringToMap (renderEntries es) [] = (m', none) ∧ m'.Perm m ∧
      (∀ k, m'.get k = m.get k) ∧ m'.len = m.len := by
  obtain ⟨hall, hm⟩ := stringToMap_success s m h
  have hsp : ∀ t ∈ Split s ' ', ' ' ∉ t := Split_not_mem s ' '
  have hnodup : m.keys.Nodup := by rw [hm]; exact writeTokens_nodup _
  have hparts : ∀ e ∈ m, (' ' ∉ e.1 ∧ ':' ∉ e.1) ∧ (' ' ∉ e.2 ∧ ':' ∉ e.2) := by
    intro e he
    rw [hm] at he
    obtain ⟨t, ht, rfl⟩ := writeTokens_mem _ e he
    exact token_parts t (hsp t ht) (hall t ht)
  have hne : m ≠ [] := by
    intro h0
    cases hs : Split s ' ' with
    | nil => exact Split_ne_nil s ' ' hs
    | cons t ts =>
      have : tokenKey t ∈ (writeTokens (Split s ' ') []).keys :=
        (writeTokens_mem_keys _ _).2 (by rw [hs]; simp)
      rw [← hm, h0] at this
      simp [GoMap.keys] at this
  have hes : es ≠ [] := fun h0 => hne (by rw [h0] at hp; exact hp.nil_eq.symm)
  have hparts' : ∀ e ∈ es, (' ' ∉ e.1 ∧ ':' ∉ e.1) ∧ (' ' ∉ e.2 ∧ ':' ∉ e.2) :=
    fun e he => hparts e (hp.mem_iff.1 he)
  have hnodup' : (GoMap.keys es).Nodup := (List.Perm.nodup_iff (hp.map Prod.fst)).2 hnodup
  have hsplit : Split (renderEntries es) ' ' = es.map renderEntry := by
    apply Split_Join
    · simpa using hes
    · intro l hl
      obtain ⟨e, he, rfl⟩ := List.mem_map.1 hl
      have := hparts' e he
      simp only [renderEntry, List.mem_append, List.mem_cons, not_or]
      exact ⟨this.1.1, by decide, this.2.1⟩
  refine ⟨es, ?_, hp, GoMap.get_perm m es hnodup hp, hp.length_eq⟩
  rw [stringToMap_eq_loop, hsplit, loop_ok]
  · rw [writeTokens_render es [] (fun e he => (hparts' e he).1.2) (by simpa [GoMap.keys] using hnodup')]
    simp
  · rw [← hsplit]; exact Split_not_mem _ ' '
  · intro t ht
    obtain ⟨e, he, rfl⟩ := List.mem_map.1 ht
    exact count_renderEntry e (hparts' e he).1.2 (hparts' e he).2.2

/-- The input "storypoints:4 dealsize:2,3,4", with its two entries written in the
other order. -/
theorem stringToMap_roundtrip_witness :
    renderEntries [("dealsize".toList, "2,3,4".toList), ("storypoints".toList, "4".toList)]
      = "dealsize:2,3,4 storypoints:4".toList ∧
    ∃ m', stringToMap "dealsize:2,3,4 storypoints:4".toList [] = (m', none) ∧
      m'.Perm [("storypoints".toList, "4".toList), ("dealsize".toList, "2,3,4".toList)] ∧
      (∀ k, m'.get k =
        GoMap.get [("storypoints".toList, "4".toList), ("dealsize".toList, "2,3,4".toList)] k) ∧
      m'.len = GoMap.len [("storypoints".toList, "4".toList), ("dealsize".toList, "2,3,4".toList)] :=
  ⟨by decide, stringToMap_roundtrip "storypoints:4 dealsize:2,3,4".toList
    [("storypoints".toList, "4".toList), ("dealsize".toList, "2,3,4".toList)]
    [("dealsize".toList, "2,3,4".toList), ("storypoints".toList, "4".toList)]
    (by decide) (by decide)⟩

/-! ## The claims about the client -/

/-- C6: `SubTasks` on an empty breakdown returns a non-nil `Issues` with an empty
list and a nil error, and does nothing else: no template read, no HTTP request. -/
theorem SubTasks_empty_breakdown (w : World) (j : Jira) (parent : Issue) :
    (j.SubTasks w parent []).outcome = .returns (some ⟨[]⟩, none) ∧
    (j.SubTasks w parent []).trace = [] ∧
    (j.SubTasks w parent []).requests = [] ∧
    (j.SubTasks w parent []).templateReads = [] := by
  simp [Jira.SubTasks, GoMap.len, Run.requests, Run.templateReads]

/-- C7: `IssueUpdate` on a parent whose key is empty returns the error "missing
required issue key" and does nothing else: in particular no HTTP request. -/
theorem IssueUpdate_empty_key (w : World) (j : Jira) (parent : Issue) (updateData : GoMap)
    (h : parent.Key = []) :
    (j.IssueUpdate w parent updateData).outcome
      = .returns (some (GoError.Errorf "missing required issue key".toList)) ∧
    (j.IssueUpdate w parent updateData).trace = [] ∧
    (j.IssueUpdate w parent updateData).requests = [] := by
  simp [Jira.IssueUpdate, h, Run.requests]

/-- A parent that has an id but no key. -/
theorem IssueUpdate_empty_key_witness :
    Issue.Key (Issue.mk "10".toList [] [] none) = [] ∧
    ((sampleJira goodUrl 204 []).IssueUpdate sampleWorld (Issue.mk "10".toList [] [] none)
        [("storypoints".toList, "4".toList)]).requests = [] :=
  ⟨rfl, (IssueUpdate_empty_key sampleWorld (sampleJira goodUrl 204 [])
    (Issue.mk "10".toList [] [] none) [("storypoints".toList, "4".toList)] rfl).2.2⟩

/-- C8: sub-task creation does not look at the parent key.  With a parent whose key
is empty and the breakdown QA:2, `SubTasks` sends its POST and returns what the
server answered with a nil error; `SubTask` does the same. -/
theorem SubTasks_empty_parent_key_sends :
    ((sampleJira goodUrl 201 "JIRA-2".toList).SubTasks sampleWorld (Issue.mk [] [] [] none)
        [("QA".toList, "2".toList)]).outcome
      = .returns (some ⟨[some (Issue.mk [] "JIRA-2".toList [] none)]⟩, none) ∧
    (((sampleJira goodUrl 201 "JIRA-2".toList).SubTasks sampleWorld (Issue.mk [] [] [] none)
        [("QA".toList, "2".toList)]).requests.map Request.URL)
      = ["https://jira.example/rest/api/2/issue/bulk".toList] ∧
    ((sampleJira goodUrl 201 "JIRA-2".toList).SubTask sampleWorld (Issue.mk [] [] [] none)
        "QA".toList ⟨0⟩).outcome
      = .returns (some (Issue.mk [] "JIRA-2".toList [] none), none) ∧
    (((sampleJira goodUrl 201 "JIRA-2".toList).SubTask sampleWorld (Issue.mk [] [] [] none)
        "QA".toList ⟨0⟩).requests.map Request.URL)
      = ["https://jira.example/rest/api/2/issue".toList] := by
  refine ⟨rfl, ?_, rfl, ?_⟩ <;> decide

/-- C9: how `execute` classifies a response that arrived.  Status 204: nil, the
result untouched, nothing read or decoded.  Status outside [200,300) with a readable
body: the error "response error <status> <body>", the result untouched.  Any other
status: exactly what decoding the body into the result gives, or nil without
decoding when there is no result. -/
theorem execute_classifies {ρ : Type} (decode : ReadCloser → ρ → ρ × Option GoError)
    (j : Jira) (req : Request) (result : Option ρ) (client : Client) (resp : Response)
    (hc : j.Client = some client) (hdo : client.Do (j.setHeaders req) = .ok resp) :
    (resp.StatusCode = 204 →
      j.execute decode (some req) result
        = ⟨.returns (result, none), [.Do (j.setHeaders req), .Close]⟩) ∧
    ((resp.StatusCode < 200 ∨ resp.StatusCode ≥ 300) → ∀ respText,
      ReadAll resp.Body = .ok respText →
      j.execute decode (some req) result
        = ⟨.returns (result, some (GoError.Errorf
            ("response error ".toList ++ Itoa resp.StatusCode ++ " ".toList ++ respText))),
          [.Do (j.setHeaders req), .ReadAll, .Close]⟩) ∧
    ((200 ≤ resp.StatusCode ∧ resp.StatusCode < 300 ∧ resp.StatusCode ≠ 204) →
      (∀ target, result = some target →
        j.execute decode (some req) result
          = ⟨.returns (some (decode resp.Body target).1, (decode resp.Body target).2),
            [.Do (j.setHeaders req), .Decode, .Close]⟩) ∧
      (result = none →
        j.execute decode (some req) result
          = ⟨.returns (none, none), [.Do (j.setHeaders req), .Close]⟩)) := by
  refine ⟨?_, ?_, ?_⟩
  · intro h204
    simp [Jira.execute, hc, hdo, h204]
  · intro hout respText hread
    have hne : resp.StatusCode ≠ 204 := by omega
    have hcond : resp.StatusCode ≥ 300 ∨ resp.StatusCode < 200 := by omega
    simp [Jira.execute, hc, hdo, hne, hcond, hread, responseError]
  · rintro ⟨hlo, hhi, hne⟩
    have hcond : ¬ (resp.StatusCode ≥ 300 ∨ resp.StatusCode < 200) := by omega
    constructor
    · intro target ht
      subst ht
      simp [Jira.execute, hc, hdo, hne, hcond]
    · intro ht
      subst ht
      simp [Jira.execute, hc, hdo, hne, hcond]

/-- A 404 answer to the GET of an issue, through `execute` and through `Issue`. -/
theorem execute_classifies_witness :
    (sampleJira goodUrl 404 "Issue Does Not Exist".toList).execute sampleWorld.DecodeIssue
        (some ⟨"GET".toList, goodUrl ++ "/issue/JIRA-1".toList, none, []⟩) (some Issue.zero)
      = ⟨.returns (some Issue.zero,
            some (GoError.Errorf "response error 404 Issue Does Not Exist".toList)),
          [.Do ((sampleJira goodUrl 404 "Issue Does Not Exist".toList).setHeaders
            ⟨"GET".toList, goodUrl ++ "/issue/JIRA-1".toList, none, []⟩), .ReadAll, .Close]⟩ ∧
    ((sampleJira goodUrl 404 "Issue Does Not Exist".toList).Issue sampleWorld
        "JIRA-1".toList).outcome
      = .returns (some Issue.zero,
          some (GoError.Errorf "response error 404 Issue Does Not Exist".toList)) :=
  ⟨(execute_classifies sampleWorld.DecodeIssue
      (sampleJira goodUrl 404 "Issue Does Not Exist".toList)
      ⟨"GET".toList, goodUrl ++ "/issue/JIRA-1".toList, none, []⟩ (some Issue.zero)
      (sampleClient 404 "Issue Does Not Exist".toList)
      ⟨404, ⟨"Issue Does Not Exist".toList, none⟩⟩ rfl rfl).2.1
      (Or.inr (by decide)) "Issue Does Not Exist".toList rfl, rfl⟩

/-- When `http.NewRequest` fails, the request is nil and `SubTasks` sets the
Content-Type header on it before looking at the error, which is a nil pointer
dereference. -/
theorem SubTasks_NewRequest_error (w : World) (j : Jira) (parent : Issue) (sp : GoMap)
    (tmpl : Template) (buff : Str) (err : GoError) (hsp : sp ≠ [])
    (hparse : w.ParseFiles (w.Getwd ++ subTaskBulkTmpl) = .ok tmpl)
    (hexec : tmpl.Execute (.SubTasks parent sp) = .ok buff)
    (hreq : w.NewRequestErr "POST".toList (j.BaseUrl ++ "/issue/bulk".toList) = some err) :
    (j.SubTasks w parent sp).outcome = .panics nilDereference := by
  have hlen : sp.len ≠ 0 := by
    cases sp with
    | nil => exact absurd rfl hsp
    | cons e es => simp [GoMap.len]
  have hnr : NewRequest w "POST".toList (j.BaseUrl ++ "/issue/bulk".toList) (some buff)
      = (none, some err) := by
    simp only [NewRequest, hreq]
  unfold Jira.SubTasks
  simp only [hlen, if_false, hparse, hexec, hnr]

/-- C10: with a base URL that `http.NewRequest` rejects, the three
operations that send a body crash instead of returning the construction error, while
`Issue`, which checks the error first, returns it. -/
theorem NewRequest_error_crashes :
    ((sampleJira badUrl 201 "JIRA-2".toList).SubTasks sampleWorld
        (Issue.mk [] "JIRA-1".toList [] none) [("QA".toList, "2".toList)]).outcome
      = .panics nilDereference ∧
    ((sampleJira badUrl 201 "JIRA-2".toList).SubTask sampleWorld
        (Issue.mk [] "JIRA-1".toList [] none) "QA".toList ⟨0⟩).outcome
      = .panics nilDereference ∧
    ((sampleJira badUrl 204 []).IssueUpdate sampleWorld
        (Issue.mk [] "JIRA-1".toList [] none) [("storypoints".toList, "4".toList)]).outcome
      = .panics nilDereference ∧
    ((sampleJira badUrl 200 "JIRA-1".toList).Issue sampleWorld "JIRA-1".toList).outcome
      = .returns (none, some (GoError.Library "missing protocol scheme".toList)) :=
  ⟨rfl, rfl, rfl, rfl⟩

end Jisub
